import Mathlib

/-!
Shallow embedding of the `rappa` music converters.

Source files embedded here:
* `lilypond_converter.py` — pitch arithmetic, tick conversion, drum lookup,
  the `LilypondEventCollector.traverse` event emission, tempo extraction and
  the timeline assembly of `lilypond_to_midifile`.
* `rappa.py` — the ABC tokenizer (`ABCPlayer.parse_note`,
  `ABCPlayer._parse_duration`), the frequency/MIDI-note conversions and the
  per-token behaviour of `ABCPlayer.save_to_midi`.

Conventions: Python ints are `Int`/`Nat`, Python `Fraction` values are `ℚ`,
Python floats in the frequency round-trip functions are idealised as `ℝ`.
Python `round` is round-half-to-even and is embedded as such (`pyRound`,
`pyRoundR`); Python `int(...)` truncation toward zero is `ratTrunc`.
-/

namespace Rappa

/-- Python `round` on an exact rational: round half to even. -/
def pyRound (q : ℚ) : ℤ :=
  if q - ⌊q⌋ < 1/2 then ⌊q⌋
  else if q - ⌊q⌋ > 1/2 then ⌊q⌋ + 1
  else if 2 ∣ ⌊q⌋ then ⌊q⌋ else ⌊q⌋ + 1

/-- Python `int(...)` applied to a rational: truncation toward zero. -/
def ratTrunc (q : ℚ) : ℤ :=
  if 0 ≤ q then ⌊q⌋ else -⌊-q⌋

/-! ## Pitch arithmetic (`lilypond_converter.py` lines 19-50) -/

/-- Table `NOTE_OFFSETS = [0, 2, 4, 5, 7, 9, 11]`. -/
def NOTE_OFFSETS : List ℤ := [0, 2, 4, 5, 7, 9, 11]

def SEMITONES_PER_OCTAVE : ℤ := 12

/-- Constant `MIDI_C4_OCTAVE_OFFSET = 4` (source comment: octave 1, LilyPond
input letter c followed by a tick mark, should yield MIDI note 60). -/
def MIDI_C4_OCTAVE_OFFSET : ℤ := 4

def QUARTER_STEPS_PER_SEMITONE : ℚ := 2

/-- MIDI channel used for percussion (`DRUM_CHANNEL = 9`). -/
def DRUM_CHANNEL : ℕ := 9

/-- The fields of `ly.pitch.Pitch` that `pitch_to_midi` reads: `note` is the
diatonic letter class 0-6, `alter` the alteration as stored by the parsing
library (sharp = 1/2), `octave` the signed octave. The letter class is a
`Fin 7` because the source indexes the seven-element `NOTE_OFFSETS` list
with it. -/
structure Pitch where
  note : Fin 7
  alter : ℚ
  octave : ℤ
deriving DecidableEq, Repr

/-- Embedding of `pitch_to_midi` (`lilypond_converter.py` lines 43-50). -/
def pitch_to_midi (pitch : Pitch) : ℤ :=
  let semitone_from_alter := pyRound (pitch.alter * QUARTER_STEPS_PER_SEMITONE)
  let base := SEMITONES_PER_OCTAVE * (pitch.octave + MIDI_C4_OCTAVE_OFFSET)
  let note_number := base + NOTE_OFFSETS.get pitch.note + semitone_from_alter
  max 0 (min 127 note_number)

/-! ## Tick conversion (`lilypond_converter.py` lines 53-55 and 98-116) -/

/-- Embedding of `_tick_scale`: ticks per whole note. -/
def tick_scale (ticks_per_beat : ℕ) : ℕ := ticks_per_beat * 4

/-- The duration-to-ticks computation the collector performs for every
playable node: `max(1, int(round(duration_fraction * tick_scale)))` where
`duration_fraction = duration * scaling`. -/
def durationTicks (duration : ℚ) (scaling : ℚ) (ticks_per_beat : ℕ) : ℤ :=
  max 1 (pyRound (duration * scaling * (tick_scale ticks_per_beat : ℚ)))

/-- The start-tick computation: `int(round(time * tick_scale))`. -/
def startTicks (time : ℚ) (ticks_per_beat : ℕ) : ℤ :=
  pyRound (time * (tick_scale ticks_per_beat : ℚ))

/-! ## Timed events and drum lookup (`lilypond_converter.py` lines 30-78) -/

/-- Embedding of the `TimedEvent` dataclass. -/
structure TimedEvent where
  start : ℤ
  duration : ℤ
  note : Option ℤ
  channel : ℕ
deriving DecidableEq, Repr

/-- Table `DRUM_NAME_TO_MIDI` (drum name to GM note number). -/
def DRUM_NAME_TO_MIDI : List (String × ℤ) :=
  [("bd", 36), ("sn", 38), ("hh", 42), ("hhc", 42), ("hho", 46),
   ("cymc", 49), ("toml", 45), ("tomm", 48), ("tomh", 50)]

/-- The dictionary lookup `DRUM_NAME_TO_MIDI.get(drum_name)` performed by
`_drum_name_to_midi`. -/
def drumNameToMidi (drum_name : String) : Option ℤ :=
  DRUM_NAME_TO_MIDI.lookup drum_name

/-- The warning text `_drum_name_to_midi` emits for an unmapped name (the
source wraps the name in single quotes; the quotes are elided here). -/
def unmappedWarning (drum_name : String) : String :=
  "Unmapped drum name " ++ drum_name ++ " - skipping this percussion event"

/-- Warnings produced by one `_drum_name_to_midi` call. -/
def drumLookupWarnings (drum_name : String) : List String :=
  match drumNameToMidi drum_name with
  | some _ => []
  | none => [unmappedWarning drum_name]

/-! ## The music item tree and the collector traversal

The collector (`LilypondEventCollector.traverse`, lines 88-144) overrides the
parsing library's depth-first event walk.  The library itself is an external
collaborator (spec section 6); its sequencing rules are modelled from spec
section 4.3: sequential containers advance time by each child's duration,
simultaneous containers give every child the same starting time, a drum-mode
container sets the drum flag for its subtree (saved and restored, here by
parameter passing), and durable leaves (including chords) advance time by
`duration * scaling` without descending further. -/

/-- Node kinds of the parsed document that the collector discriminates:
`items.Music` containers (sequential and simultaneous), `items.DrumMode`,
`items.Chord`, and the durable leaves `Note`, `DrumNote`, `Rest`, `Skip`,
`Q`, `Unpitched`.  Durable leaves carry `node.duration = (length, scaling)`
as the pair `(len, scal)`; `Note` carries the optional `pitch` attribute the
source guards with `getattr(node, "pitch", None)`. -/
inductive Item where
  | seqMusic (children : List Item)
  | simMusic (children : List Item)
  | drumMode (children : List Item)
  | chord (len scal : ℚ) (children : List Item)
  | note (pitch : Option Pitch) (len scal : ℚ)
  | drumNote (token : String) (len scal : ℚ)
  | rest (len scal : ℚ)
  | skip (len scal : ℚ)
  | q (len scal : ℚ)
  | unpitched (len scal : ℚ)
deriving Repr

/-- Result of a traversal: the collected `self.events`, the warnings emitted
by `warnings.warn`, and the time at which the subtree ends. -/
structure CollectResult where
  events : List TimedEvent
  warnings : List String
  endTime : ℚ
deriving Repr

/-- The chord branch's loop over children (lines 102-112): one event per
`DrumNote` child whose name is mapped, all sharing the chord's start tick,
duration and the percussion channel; a warning per unmapped name. -/
def chordDrumEvents (start_ticks duration_ticks : ℤ) :
    List Item → List TimedEvent × List String
  | [] => ([], [])
  | child :: restChildren =>
    let acc := chordDrumEvents start_ticks duration_ticks restChildren
    match child with
    | .drumNote tok _ _ =>
      match drumNameToMidi tok with
      | some n =>
        (⟨start_ticks, duration_ticks, some n, DRUM_CHANNEL⟩ :: acc.1, acc.2)
      | none => (acc.1, unmappedWarning tok :: acc.2)
    | _ => acc

mutual

/-- Embedding of `LilypondEventCollector.traverse` (lines 88-144), with the
external library's recursion driver modelled from spec section 4.3.  `time`
and `scaling` are the walk's cumulative time and ambient scaling factor,
`inDrum` the drum-mode context flag. -/
def traverse (tpb : ℕ) (node : Item) (time : ℚ) (scaling : ℚ)
    (inDrum : Bool) : CollectResult :=
  match node with
  | .seqMusic children => traverseSeq tpb children time scaling inDrum
  | .simMusic children => traverseSim tpb children time scaling inDrum
  | .drumMode children => traverseSeq tpb children time scaling true
  | .chord len scal children =>
    let endT := time + len * scal * scaling
    if inDrum then
      -- lines 97-112: chord inside drum mode
      let st := startTicks time tpb
      let du := durationTicks (len * scal) scaling tpb
      let (evs, ws) := chordDrumEvents st du children
      ⟨evs, ws, endT⟩
    else
      -- a chord outside drum mode is Durable but not in the emit tuple of
      -- line 128-130, so no event is appended
      ⟨[], [], endT⟩
  | .note pitch len scal =>
    -- lines 113-136, Note case: note number from the pitch when present
    ⟨[⟨startTicks time tpb, durationTicks (len * scal) scaling tpb,
       pitch.map pitch_to_midi, 0⟩], [], time + len * scal * scaling⟩
  | .drumNote tok len scal =>
    -- lines 120-124: standalone drum note; the event is appended even when
    -- the lookup fails (its note is then None), and the lookup warns
    ⟨[⟨startTicks time tpb, durationTicks (len * scal) scaling tpb,
       drumNameToMidi tok, DRUM_CHANNEL⟩], drumLookupWarnings tok,
     time + len * scal * scaling⟩
  | .rest len scal =>
    ⟨[⟨startTicks time tpb, durationTicks (len * scal) scaling tpb, none, 0⟩],
     [], time + len * scal * scaling⟩
  | .skip len scal =>
    ⟨[⟨startTicks time tpb, durationTicks (len * scal) scaling tpb, none, 0⟩],
     [], time + len * scal * scaling⟩
  | .q len scal =>
    ⟨[⟨startTicks time tpb, durationTicks (len * scal) scaling tpb, none, 0⟩],
     [], time + len * scal * scaling⟩
  | .unpitched len scal =>
    ⟨[⟨startTicks time tpb, durationTicks (len * scal) scaling tpb, none, 0⟩],
     [], time + len * scal * scaling⟩

/-- Sequential container: children start where the previous one ended
(spec section 4.3). -/
def traverseSeq (tpb : ℕ) (nodes : List Item) (time : ℚ) (scaling : ℚ)
    (inDrum : Bool) : CollectResult :=
  match nodes with
  | [] => ⟨[], [], time⟩
  | n :: restNodes =>
    let r := traverse tpb n time scaling inDrum
    let r2 := traverseSeq tpb restNodes r.endTime scaling inDrum
    ⟨r.events ++ r2.events, r.warnings ++ r2.warnings, r2.endTime⟩

/-- Simultaneous container: every child starts at the same time
(spec section 4.3); the container ends when its longest child does. -/
def traverseSim (tpb : ℕ) (nodes : List Item) (time : ℚ) (scaling : ℚ)
    (inDrum : Bool) : CollectResult :=
  match nodes with
  | [] => ⟨[], [], time⟩
  | n :: restNodes =>
    let r := traverse tpb n time scaling inDrum
    let r2 := traverseSim tpb restNodes time scaling inDrum
    ⟨r.events ++ r2.events, r.warnings ++ r2.warnings, max r.endTime r2.endTime⟩

end

/-! ## Timeline assembly (`lilypond_converter.py` lines 196-215) -/

def OFF_PRIORITY : ℕ := 0
def ON_PRIORITY : ℕ := 1

/-- Event kinds `EVENT_OFF = "off"` and `EVENT_ON = "on"`. -/
inductive EventKind where
  | off
  | on
deriving DecidableEq, Repr

/-- The sort key's second component:
`OFF_PRIORITY if e[1] == EVENT_OFF else ON_PRIORITY`. -/
def kindPriority : EventKind → ℕ
  | .off => OFF_PRIORITY
  | .on => ON_PRIORITY

/-- One timeline tuple `(tick, event_type, note, channel)`. -/
structure TimelineEntry where
  tick : ℤ
  kind : EventKind
  note : ℤ
  channel : ℕ
deriving DecidableEq, Repr

/-- The loop of lines 198-202: events with an absent note are skipped, every
other event contributes an ON entry at its start and an OFF entry at
`start + duration`. -/
def buildTimeline : List TimedEvent → List TimelineEntry
  | [] => []
  | e :: restEvents =>
    match e.note with
    | none => buildTimeline restEvents
    | some n =>
      ⟨e.start, .on, n, e.channel⟩ :: ⟨e.start + e.duration, .off, n, e.channel⟩
        :: buildTimeline restEvents

/-- The ordering used by `timeline.sort(key=lambda e: (e[0], priority))`:
lexicographic comparison of the key tuples. -/
def timelineLE (a b : TimelineEntry) : Prop :=
  a.tick < b.tick ∨ (a.tick = b.tick ∧ kindPriority a.kind ≤ kindPriority b.kind)

instance : DecidableRel timelineLE := fun a b => by
  unfold timelineLE; infer_instance

instance : IsTotal TimelineEntry timelineLE where
  total a b := by
    unfold timelineLE
    rcases lt_trichotomy a.tick b.tick with h | h | h
    · exact Or.inl (Or.inl h)
    · rcases le_total (kindPriority a.kind) (kindPriority b.kind) with h2 | h2
      · exact Or.inl (Or.inr ⟨h, h2⟩)
      · exact Or.inr (Or.inr ⟨h.symm, h2⟩)
    · exact Or.inr (Or.inl h)

instance : IsTrans TimelineEntry timelineLE where
  trans a b c hab hbc := by
    unfold timelineLE at *
    rcases hab with h | ⟨h, h2⟩ <;> rcases hbc with h3 | ⟨h3, h4⟩
    · exact Or.inl (h.trans h3)
    · exact Or.inl (h3 ▸ h)
    · exact Or.inl (h ▸ h3)
    · exact Or.inr ⟨h.trans h3, h2.trans h4⟩

/-- The stable sort of line 204, embedded as an insertion sort with respect
to the key order. -/
def sortTimeline (timeline : List TimelineEntry) : List TimelineEntry :=
  List.insertionSort timelineLE timeline

/-- One emitted note message: `note_on`/`note_off` with fixed velocity 64 and
a delta `time` field (lines 207-213). -/
structure NoteMsg where
  isOn : Bool
  note : ℤ
  velocity : ℤ
  time : ℤ
  channel : ℕ
deriving DecidableEq, Repr

/-- The emission loop of lines 206-213: walk the sorted timeline tracking the
last emitted tick (initially 0); each entry becomes one message with delta
`max 0 (tick - last_tick)`. -/
def emitMessages (last_tick : ℤ) : List TimelineEntry → List NoteMsg
  | [] => []
  | e :: restEntries =>
    ⟨e.kind = .on, e.note, 64, max 0 (e.tick - last_tick), e.channel⟩
      :: emitMessages e.tick restEntries

/-- The full timeline phase of `lilypond_to_midifile` applied to the events
the collector produced. -/
def assembleMessages (events : List TimedEvent) : List NoteMsg :=
  emitMessages 0 (sortTimeline (buildTimeline events))

/-! ## Tempo extraction (`lilypond_converter.py` lines 158-165) -/

/-- What `_extract_tempo` reads off one `items.Tempo` node: the list returned
by `tempo_node.tempo()` and the optional fraction `tempo_node.fraction()`. -/
structure TempoNode where
  values : List ℚ
  fraction : Option ℚ
deriving DecidableEq, Repr

/-- Python `tempo_node.fraction() or Fraction(1, 4)`: `None` and the falsy
`Fraction(0)` both fall back to 1/4. -/
def tempoBaseFraction : Option ℚ → ℚ
  | none => 1/4
  | some f => if f = 0 then 1/4 else f

/-- Embedding of `_extract_tempo`.  The list argument stands for the sequence
of `items.Tempo` nodes `root.find(items.Tempo)` yields, in document order.
The first node with a non-empty `values` list determines the tempo:
`values[0] * (base_fraction / Fraction(1, 4))`; otherwise the caller's
default is returned. -/
def extract_tempo : List TempoNode → ℤ → ℚ
  | [], default_bpm => (default_bpm : ℚ)
  | t :: restNodes, default_bpm =>
    match t.values with
    | [] => extract_tempo restNodes default_bpm
    | v :: _ => v * (tempoBaseFraction t.fraction / (1/4))

/-! ## ABC tokenizer (`rappa.py` lines 12-24 and 175-251)

Fallible operations (Python `int(...)` raising `ValueError`, `//` raising
`ZeroDivisionError`) return `Option`, with `none` standing for a raised
exception.  Decimal float literals from the frequency table are embedded as
the exact rationals they denote.  A parsed frequency is a table value
multiplied by an integer power of the semitone ratio `2 ** (1/12)`; since
the ratio is irrational it is kept symbolic: `Frequency` stores the rational
table value `base` and the exponent `semis`, and `Frequency.toReal` gives
the denoted real number. -/

def BASE_DURATION : ℤ := 500

/-- Table `NOTE_FREQUENCIES` (letter to frequency in Hz). -/
def NOTE_FREQUENCIES : List (Char × ℚ) :=
  [('C', 26163/100), ('D', 29366/100), ('E', 32963/100), ('F', 34923/100),
   ('G', 39200/100), ('A', 44000/100), ('B', 49388/100),
   ('c', 52325/100), ('d', 58733/100), ('e', 65925/100), ('f', 69846/100),
   ('g', 78399/100), ('a', 88000/100), ('b', 98777/100)]

/-- Symbolic frequency value `base * (2 ** (1/12)) ** semis`. -/
structure Frequency where
  base : ℚ
  semis : ℤ
deriving DecidableEq, Repr

/-- The real number a `Frequency` denotes. -/
noncomputable def Frequency.toReal (f : Frequency) : ℝ :=
  (f.base : ℝ) * (2 : ℝ) ^ ((f.semis : ℝ) / 12)

/-- Python `int(s)` on a token fragment: an optional sign followed by a
non-empty digit string (the underscore digit grouping and surrounding
whitespace Python also accepts cannot occur in whitespace-split tokens that
reach the duration parser through the note regex; for rest remainders they
are not modelled). `none` is a raised `ValueError`. -/
def digitsVal (chars : List Char) : Option ℕ :=
  if chars ≠ [] ∧ chars.all Char.isDigit then
    some (chars.foldl (fun acc c => 10 * acc + (c.toNat - 48)) 0)
  else none

def pyInt (chars : List Char) : Option ℤ :=
  if chars.head? = some '+' then (digitsVal chars.tail).map (fun n => (n : ℤ))
  else if chars.head? = some '-' then
    (digitsVal chars.tail).map (fun n => -(n : ℤ))
  else (digitsVal chars).map (fun n => (n : ℤ))

/-- Embedding of `ABCPlayer._parse_duration` (`rappa.py` lines 214-234),
on the character list of the duration text.  Python `//` is floor division
(`Int.fdiv`); a zero divisor raises, which is `none` here. -/
def parse_duration (duration_str : List Char) : Option ℤ :=
  if duration_str = [] then some BASE_DURATION
  else if duration_str.head? = some '/' then
    if duration_str.length = 1 then some (Int.fdiv BASE_DURATION 2)
    else
      (pyInt duration_str.tail).bind fun divisor =>
        if divisor = 0 then none else some (Int.fdiv BASE_DURATION divisor)
  else
    (pyInt duration_str).map fun multiplier => BASE_DURATION * multiplier

def isAccChar (c : Char) : Bool := c = '^' || c = '_' || c = '='

def isNoteLetter (c : Char) : Bool :=
  ('A' ≤ c && c ≤ 'G') || ('a' ≤ c && c ≤ 'g')

def isDurChar (c : Char) : Bool := c = '/' || c.isDigit

/-- The regex match of `rappa.py` line 192,
`re.match(r..., note_str)` with pattern: optional accidental in `^_=`, one
letter `A`-`G` or `a`-`g`, then a greedy run of `/` and digits.  Returns the
three groups on success.  When the first character is an accidental but the
second is not a letter, backtracking with an empty first group also fails
(an accidental character is not a letter), so the match fails. -/
def matchNote (chars : List Char) : Option (Option Char × Char × List Char) :=
  match chars with
  | [] => none
  | c1 :: rest1 =>
    if isAccChar c1 then
      match rest1 with
      | c2 :: rest2 =>
        if isNoteLetter c2 then some (some c1, c2, rest2.takeWhile isDurChar)
        else none
      | [] => none
    else if isNoteLetter c1 then some (none, c1, rest1.takeWhile isDurChar)
    else none

/-- Embedding of `ABCPlayer.parse_note` (`rappa.py` lines 175-212).  `none`
is an exception escaping the call; otherwise the `(frequency, duration)`
pair is returned.  The accidental branch multiplies or divides by the
semitone ratio, recorded in the `semis` exponent. -/
def parse_note (note_str : String) : Option (Frequency × ℤ) :=
  let chars := note_str.toList
  if chars.head? = some 'z' then
    (parse_duration chars.tail).map fun duration => (⟨0, 0⟩, duration)
  else
    match matchNote chars with
    | none => some (⟨0, 0⟩, BASE_DURATION)
    | some (accidental, note_name, dur_chars) =>
      let base := ((NOTE_FREQUENCIES.lookup note_name).getD 0)
      let frequency : Frequency :=
        if accidental = some '^' then ⟨base, 1⟩
        else if accidental = some '_' then ⟨base, -1⟩
        else ⟨base, 0⟩
      (parse_duration dur_chars).map fun duration =>
        (frequency, duration)

/-! ## Frequency and MIDI-note conversions (`rappa.py` lines 113-123, 236-251) -/

/-- Python `round` on a real: round half to even. -/
noncomputable def pyRoundR (x : ℝ) : ℤ :=
  if x - ⌊x⌋ = 1/2 then (if 2 ∣ ⌊x⌋ then ⌊x⌋ else ⌊x⌋ + 1) else round x

/-- Embedding of `ABCPlayer.midi_note_to_frequency`:
`440.0 * (2 ** ((note_number - 69) / 12))`. -/
noncomputable def midi_note_to_frequency (note_number : ℤ) : ℝ :=
  440 * (2 : ℝ) ^ (((note_number : ℝ) - 69) / 12)

/-- Embedding of `ABCPlayer.frequency_to_midi_note`:
`round(69 + 12 * math.log2(frequency / 440.0))` clamped to `[0, 127]`, with
an early 0 for a zero frequency. -/
noncomputable def frequency_to_midi_note (frequency : ℝ) : ℤ :=
  if frequency = 0 then 0
  else max 0 (min 127 (pyRoundR (69 + 12 * Real.logb 2 (frequency / 440))))

noncomputable def Frequency.toMidiNote (f : Frequency) : ℤ :=
  frequency_to_midi_note f.toReal

/-! ## MIDI track construction (`rappa.py` lines 253-319) -/

/-- The four message shapes `save_to_midi` appends. -/
inductive TrackMsg where
  | trackName (name : String) (time : ℤ)
  | setTempo (tempo : ℤ) (time : ℤ)
  | noteOn (note : ℤ) (velocity : ℤ) (time : ℤ)
  | noteOff (note : ℤ) (velocity : ℤ) (time : ℤ)
deriving DecidableEq, Repr

def TrackMsg.time : TrackMsg → ℤ
  | .trackName _ t => t
  | .setTempo _ t => t
  | .noteOn _ _ t => t
  | .noteOff _ _ t => t

/-- The statement `track[-1].time += ticks`: every field but `time` is kept. -/
def TrackMsg.addTime (m : TrackMsg) (ticks : ℤ) : TrackMsg :=
  match m with
  | .trackName n t => .trackName n (t + ticks)
  | .setTempo x t => .setTempo x (t + ticks)
  | .noteOn n v t => .noteOn n v (t + ticks)
  | .noteOff n v t => .noteOff n v (t + ticks)

/-- mido `bpm2tempo`: microseconds per quarter note, `round(60 * 1e6 / bpm)`
(the zero-BPM division error is not modelled; no claim exercises it). -/
def bpm2tempo (bpm : ℤ) : ℤ := pyRound (60000000 / (bpm : ℚ))

/-- The two metadata messages appended before the token loop
(`rappa.py` lines 277-278). -/
def initialTrack (tempo : ℤ) : List TrackMsg :=
  [.trackName "rappa ABC" 0, .setTempo (bpm2tempo tempo) 0]

/-- The tick count of one token (`rappa.py` lines 290-294):
`int((duration / 1000.0) * (480 * (tempo / 60.0)))`. -/
def tokenTicks (tempo : ℤ) (duration : ℤ) : ℤ :=
  ratTrunc (((duration : ℚ) / 1000) * (480 * ((tempo : ℚ) / 60)))

/-- One iteration of the token loop of `ABCPlayer.save_to_midi`
(`rappa.py` lines 287-314).  The Python test `frequency > 0` compares the
denoted real value; it is decided on the symbolic form as `0 < base`, which
agrees with it because the semitone-ratio power is strictly positive
(lemma `Frequency.toReal_pos_iff` below). -/
noncomputable def processToken (tempo : ℤ) (track : List TrackMsg)
    (note_str : String) : Option (List TrackMsg) :=
  match parse_note note_str with
  | none => none
  | some (frequency, duration) =>
    let ticks := tokenTicks tempo duration
    if 0 < frequency.base then
      let midi_note := frequency.toMidiNote
      some (track ++ [.noteOn midi_note 64 0, .noteOff midi_note 64 ticks])
    else
      match track with
      | [] => some []
      | t :: ts =>
        some ((t :: ts).dropLast ++ [((t :: ts).getLast (by simp)).addTime ticks])

/-- Python `str.split()`: split on whitespace runs, dropping empty pieces. -/
def pySplit (s : String) : List String :=
  (s.split Char.isWhitespace).filter (fun t => t ≠ "")

/-- Embedding of the whole `ABCPlayer.save_to_midi` track construction. -/
noncomputable def save_to_midi (abc : String) (tempo : ℤ) :
    Option (List TrackMsg) :=
  (pySplit abc).foldlM (processToken tempo) (initialTrack tempo)

/-! ## Specification-side helper definitions used by the theorems below -/

instance : Inhabited TimelineEntry := ⟨⟨0, .off, 0, 0⟩⟩

instance : Inhabited NoteMsg := ⟨⟨false, 0, 0, 0, 0⟩⟩

/-- The drum-note tokens among a chord's children, in encounter order. -/
def drumTokens : List Item → List String :=
  List.filterMap fun c =>
    match c with
    | .drumNote tok _ _ => some tok
    | _ => none

/-- One event per mapped drum name, all with the same start, duration and
percussion channel. -/
def chordEventsSpec (start_ticks duration_ticks : ℤ) (toks : List String) :
    List TimedEvent :=
  toks.filterMap fun tok =>
    (drumNameToMidi tok).map fun n =>
      (⟨start_ticks, duration_ticks, some n, DRUM_CHANNEL⟩ : TimedEvent)

/-- One warning per unmapped drum name, in encounter order. -/
def unmappedWarningsOf (toks : List String) : List String :=
  (toks.filter fun tok => (drumNameToMidi tok).isNone).map unmappedWarning

/-- The document tree of the spec scenario
drummode with the two chords bd-hh and sn-hho, both quarter notes. -/
def drumChordScenario : Item :=
  .drumMode [.chord (1/4) 1 [.drumNote "bd" 0 1, .drumNote "hh" 0 1],
             .chord (1/4) 1 [.drumNote "sn" 0 1, .drumNote "hho" 0 1]]

/-- A drummode block holding a single unmapped drum note (quarter note). -/
def unmappedDrumScenario : Item :=
  .drumMode [.drumNote "unknowndrum" (1/4) 1]

/-- The duration text `parse_note` hands to `_parse_duration` for a token:
the remainder after a leading rest marker, or the matched third group, or
the empty string when the regex fails. -/
def durationPart (note_str : String) : List Char :=
  let chars := note_str.toList
  if chars.head? = some 'z' then chars.tail
  else
    match matchNote chars with
    | some (_, _, dur_chars) => dur_chars
    | none => []

/-- The target of the rest branch of the token loop:
`track[:-1] + [last message with its time advanced]`. -/
def restUpdate (track : List TrackMsg) (ticks : ℤ) : List TrackMsg :=
  track.dropLast ++ [(track.getLastD (.trackName "" 0)).addTime ticks]

/-- Sum of the delta-time fields: the absolute tick at which a message
appended after the track would start. -/
def sumTimes (track : List TrackMsg) : ℤ := (track.map TrackMsg.time).sum

/-! ## Helper lemmas -/

theorem pyRound_intCast (n : ℤ) : pyRound ((n : ℚ)) = n := by
  unfold pyRound
  rw [Int.floor_intCast, sub_self]
  rw [if_pos (by norm_num)]

theorem startTicks_eval (time : ℚ) (tpb : ℕ) (n : ℤ)
    (h : time * (tick_scale tpb : ℚ) = (n : ℚ)) : startTicks time tpb = n := by
  unfold startTicks
  rw [h, pyRound_intCast]

theorem durationTicks_eval (d s : ℚ) (tpb : ℕ) (n : ℤ)
    (h : d * s * (tick_scale tpb : ℚ) = (n : ℚ)) (hn : 1 ≤ n) :
    durationTicks d s tpb = n := by
  unfold durationTicks
  rw [h, pyRound_intCast]
  exact max_eq_right hn

theorem pitch_to_midi_eval (p : Pitch) (k : ℤ)
    (h : p.alter * QUARTER_STEPS_PER_SEMITONE = (k : ℚ)) :
    pitch_to_midi p =
      max 0 (min 127 (12 * (p.octave + 4) + NOTE_OFFSETS.get p.note + k)) := by
  unfold pitch_to_midi
  rw [h, pyRound_intCast]
  rfl

theorem durationTicks_one_le (d s : ℚ) (tpb : ℕ) : 1 ≤ durationTicks d s tpb :=
  le_max_left _ _

theorem clamp_mono {a b : ℤ} (h : a ≤ b) :
    max 0 (min 127 a) ≤ max 0 (min 127 b) :=
  max_le_max le_rfl (min_le_min le_rfl h)

theorem NOTE_OFFSETS_mono : ∀ i j : Fin 7, i ≤ j →
    NOTE_OFFSETS.get i ≤ NOTE_OFFSETS.get j := by decide

/-- The chord branch's child loop produces exactly one event per mapped
drum-note child (in encounter order, with the shared timing and channel)
and one warning per unmapped drum-note child. -/
theorem chordDrumEvents_eq (st du : ℤ) (children : List Item) :
    chordDrumEvents st du children =
      (chordEventsSpec st du (drumTokens children),
       unmappedWarningsOf (drumTokens children)) := by
  induction children with
  | nil => rfl
  | cons child restChildren ih =>
    cases child with
    | drumNote tok len scal =>
      simp only [chordDrumEvents, ih, drumTokens, List.filterMap_cons]
      cases hlook : drumNameToMidi tok with
      | some n =>
        simp [chordEventsSpec, unmappedWarningsOf, hlook, drumTokens]
      | none =>
        simp [chordEventsSpec, unmappedWarningsOf, hlook, drumTokens]
    | seqMusic children => simpa [chordDrumEvents, drumTokens] using ih
    | simMusic children => simpa [chordDrumEvents, drumTokens] using ih
    | drumMode children => simpa [chordDrumEvents, drumTokens] using ih
    | chord len scal children => simpa [chordDrumEvents, drumTokens] using ih
    | note pitch len scal => simpa [chordDrumEvents, drumTokens] using ih
    | rest len scal => simpa [chordDrumEvents, drumTokens] using ih
    | skip len scal => simpa [chordDrumEvents, drumTokens] using ih
    | q len scal => simpa [chordDrumEvents, drumTokens] using ih
    | unpitched len scal => simpa [chordDrumEvents, drumTokens] using ih

theorem chordEventsSpec_duration (st du : ℤ) (toks : List String) :
    ∀ e ∈ chordEventsSpec st du toks, e.duration = du := by
  intro e he
  simp only [chordEventsSpec, List.mem_filterMap] at he
  obtain ⟨tok, -, hmap⟩ := he
  cases h : drumNameToMidi tok with
  | none => simp [h] at hmap
  | some n => simp [h] at hmap; simp [← hmap]

mutual

/-- Every event the collector ever appends has duration
`durationTicks _ _ _`, hence at least one tick. -/
theorem traverse_duration_pos (tpb : ℕ) (node : Item) (time scaling : ℚ)
    (inDrum : Bool) :
    ∀ e ∈ (traverse tpb node time scaling inDrum).events, 1 ≤ e.duration := by
  cases node with
  | seqMusic children => exact traverseSeq_duration_pos tpb children time scaling inDrum
  | simMusic children => exact traverseSim_duration_pos tpb children time scaling inDrum
  | drumMode children => exact traverseSeq_duration_pos tpb children time scaling true
  | chord len scal children =>
    intro e he
    simp only [traverse] at he
    by_cases hd : inDrum
    · simp only [hd, if_true, chordDrumEvents_eq] at he
      have := chordEventsSpec_duration (startTicks time tpb)
        (durationTicks (len * scal) scaling tpb) (drumTokens children) e he
      rw [this]
      exact durationTicks_one_le _ _ _
    · simp [hd] at he
  | note pitch len scal =>
    intro e he
    simp only [traverse, List.mem_singleton] at he
    rw [he]
    exact durationTicks_one_le _ _ _
  | drumNote tok len scal =>
    intro e he
    simp only [traverse, List.mem_singleton] at he
    rw [he]
    exact durationTicks_one_le _ _ _
  | rest len scal =>
    intro e he
    simp only [traverse, List.mem_singleton] at he
    rw [he]
    exact durationTicks_one_le _ _ _
  | skip len scal =>
    intro e he
    simp only [traverse, List.mem_singleton] at he
    rw [he]
    exact durationTicks_one_le _ _ _
  | q len scal =>
    intro e he
    simp only [traverse, List.mem_singleton] at he
    rw [he]
    exact durationTicks_one_le _ _ _
  | unpitched len scal =>
    intro e he
    simp only [traverse, List.mem_singleton] at he
    rw [he]
    exact durationTicks_one_le _ _ _

theorem traverseSeq_duration_pos (tpb : ℕ) (nodes : List Item)
    (time scaling : ℚ) (inDrum : Bool) :
    ∀ e ∈ (traverseSeq tpb nodes time scaling inDrum).events, 1 ≤ e.duration := by
  cases nodes with
  | nil => intro e he; simp [traverseSeq] at he
  | cons n restNodes =>
    intro e he
    simp only [traverseSeq, List.mem_append] at he
    rcases he with h | h
    · exact traverse_duration_pos tpb n time scaling inDrum e h
    · exact traverseSeq_duration_pos tpb restNodes _ scaling inDrum e h

theorem traverseSim_duration_pos (tpb : ℕ) (nodes : List Item)
    (time scaling : ℚ) (inDrum : Bool) :
    ∀ e ∈ (traverseSim tpb nodes time scaling inDrum).events, 1 ≤ e.duration := by
  cases nodes with
  | nil => intro e he; simp [traverseSim] at he
  | cons n restNodes =>
    intro e he
    simp only [traverseSim, List.mem_append] at he
    rcases he with h | h
    · exact traverse_duration_pos tpb n time scaling inDrum e h
    · exact traverseSim_duration_pos tpb restNodes time scaling inDrum e h

end

theorem emitMessages_length (timeline : List TimelineEntry) :
    ∀ last_tick, (emitMessages last_tick timeline).length = timeline.length := by
  induction timeline with
  | nil => intro last_tick; rfl
  | cons e restEntries ih =>
    intro last_tick
    simp [emitMessages, ih]

theorem emitMessages_time_nonneg (timeline : List TimelineEntry) :
    ∀ last_tick, ∀ m ∈ emitMessages last_tick timeline, 0 ≤ m.time := by
  induction timeline with
  | nil => intro last_tick m hm; simp [emitMessages] at hm
  | cons e restEntries ih =>
    intro last_tick m hm
    simp only [emitMessages, List.mem_cons] at hm
    rcases hm with h | h
    · rw [h]; exact le_max_left _ _
    · exact ih e.tick m h

theorem emitMessages_time_eq (timeline : List TimelineEntry) :
    ∀ last_tick i, i < timeline.length →
      ((emitMessages last_tick timeline).getD i default).time =
        max 0 ((timeline.getD i default).tick -
          (if i = 0 then last_tick else (timeline.getD (i - 1) default).tick)) := by
  induction timeline with
  | nil => intro last_tick i hi; simp at hi
  | cons e restEntries ih =>
    intro last_tick i hi
    cases i with
    | zero => simp [emitMessages]
    | succ j =>
      have hj : j < restEntries.length := by simpa using hi
      have step := ih e.tick j hj
      have hprev : (if j = 0 then e.tick
          else (restEntries.getD (j - 1) default).tick) =
          ((e :: restEntries).getD j default).tick := by
        cases j with
        | zero => simp
        | succ k => simp
      simp only [emitMessages, List.getD_cons_succ, Nat.succ_sub_one,
        Nat.succ_ne_zero, if_false]
      rw [step, hprev]

theorem sortTimeline_sorted (timeline : List TimelineEntry) :
    List.Sorted timelineLE (sortTimeline timeline) :=
  List.sorted_insertionSort timelineLE timeline

theorem timelineLE_good {a b : TimelineEntry} (h : timelineLE a b) :
    a.tick ≤ b.tick ∧
      (a.tick = b.tick → (a.kind = EventKind.off ∨ b.kind = EventKind.on)) := by
  rcases h with h | ⟨h, h2⟩
  · exact ⟨le_of_lt h, fun he => absurd he (ne_of_lt h)⟩
  · refine ⟨le_of_eq h, fun _ => ?_⟩
    cases ha : a.kind <;> cases hb : b.kind
    · exact Or.inl rfl
    · exact Or.inl rfl
    · rw [ha, hb] at h2
      exact absurd h2 (by decide)
    · exact Or.inr rfl

/-! ## Claim theorems -/

/-- C1. For every collection of TimedEvents produced by traversal, the
timeline assembled by `lilypond_to_midifile` is ordered by tick ascending
with, at any equal tick, every OFF entry placed before every ON entry, and
each emitted MIDI message's delta time equals
`max 0 (tick - last emitted tick)` (last tick initially 0) and is therefore
never negative. -/
theorem timeline_sorted_and_delta_nonneg (events : List TimedEvent) :
    List.Pairwise
      (fun a b => a.tick ≤ b.tick ∧
        (a.tick = b.tick → (a.kind = EventKind.off ∨ b.kind = EventKind.on)))
      (sortTimeline (buildTimeline events)) ∧
    (∀ i, i < (sortTimeline (buildTimeline events)).length →
      ((assembleMessages events).getD i default).time =
        max 0 (((sortTimeline (buildTimeline events)).getD i default).tick -
          (if i = 0 then 0
           else ((sortTimeline (buildTimeline events)).getD (i - 1) default).tick))) ∧
    (∀ m ∈ assembleMessages events, 0 ≤ m.time) := by
  refine ⟨?_, ?_, ?_⟩
  · exact (sortTimeline_sorted (buildTimeline events)).imp fun h => timelineLE_good h
  · intro i hi
    exact emitMessages_time_eq (sortTimeline (buildTimeline events)) 0 i hi
  · intro m hm
    exact emitMessages_time_nonneg (sortTimeline (buildTimeline events)) 0 m hm

/-- C1 witness: the theorem applied to a concrete one-event collection. -/
theorem timeline_sorted_and_delta_nonneg_witness :
    ((assembleMessages [⟨0, 480, some 60, 0⟩]).getD 1 default).time =
      max 0 (((sortTimeline (buildTimeline [⟨0, 480, some 60, 0⟩])).getD 1
          default).tick -
        ((sortTimeline (buildTimeline [⟨0, 480, some 60, 0⟩])).getD 0
          default).tick) ∧
    (0 : ℤ) ≤ ((assembleMessages [⟨0, 480, some 60, 0⟩]).getD 0 default).time := by
  constructor
  · have h := (timeline_sorted_and_delta_nonneg [⟨0, 480, some 60, 0⟩]).2.1 1
      (by decide)
    simpa using h
  · exact (timeline_sorted_and_delta_nonneg [⟨0, 480, some 60, 0⟩]).2.2 _
      (by decide)

/-- C2 counterexample: the claim maps the pitch with letter class 0,
octave 0 and alteration 0 to MIDI note 60, but `pitch_to_midi` yields 48
for it (the source aligns octave 1 with MIDI note 60). -/
theorem pitch_reference_octave_counterexample :
    pitch_to_midi ⟨0, 0, 0⟩ = 48 ∧ pitch_to_midi ⟨0, 0, 0⟩ ≠ 60 := by
  have h : pitch_to_midi ⟨0, 0, 0⟩ = 48 := by
    rw [pitch_to_midi_eval ⟨0, 0, 0⟩ 0 (by norm_num [QUARTER_STEPS_PER_SEMITONE])]
    decide
  exact ⟨h, by rw [h]; decide⟩

/-- C2 (amended). For every pitch with letter class 0-6, octave `o` and
alteration `a`, `pitch_to_midi` returns
`12 * (o + OCTAVE_OFFSET) + [0,2,4,5,7,9,11][letter] + round(a * 2)` clamped
to `[0, 127]`, with `OCTAVE_OFFSET = 4` chosen so that octave 1's C (the
source's reference `c` with one octave tick) maps to MIDI note 60; octave
0's C maps to 48. -/
theorem pitch_to_midi_formula :
    (∀ p : Pitch, pitch_to_midi p =
      max 0 (min 127 (12 * (p.octave + 4) + NOTE_OFFSETS.get p.note +
        pyRound (p.alter * 2)))) ∧
    pitch_to_midi ⟨0, 0, 1⟩ = 60 := by
  constructor
  · intro p; rfl
  · rw [pitch_to_midi_eval ⟨0, 0, 1⟩ 0 (by norm_num [QUARTER_STEPS_PER_SEMITONE])]
    decide

/-- C5. For every duration `d` (whole-note units), scaling `s` and
resolution `r` (ticks per quarter note), the tick count computed for a
playable node is `round(d * s * r * 4)` floored at 1, so every emitted
TimedEvent has duration at least 1 tick. -/
theorem duration_ticks_floored_at_one :
    (∀ (d s : ℚ) (r : ℕ), durationTicks d s r =
        max 1 (pyRound (d * s * (r : ℚ) * 4)) ∧ 1 ≤ durationTicks d s r) ∧
    (∀ (tpb : ℕ) (node : Item) (time scaling : ℚ) (inDrum : Bool),
      ∀ e ∈ (traverse tpb node time scaling inDrum).events, 1 ≤ e.duration) := by
  constructor
  · intro d s r
    constructor
    · unfold durationTicks tick_scale
      congr 2
      push_cast
      ring
    · exact durationTicks_one_le d s r
  · exact traverse_duration_pos

/-- C5 witness: a quarter rest at resolution 480 produces an event of 480
ticks, in particular at least one tick. -/
theorem duration_ticks_floored_at_one_witness :
    durationTicks (1/4) 1 480 = max 1 (pyRound ((1/4 : ℚ) * 1 * (480 : ℚ) * 4)) ∧
    (1 : ℤ) ≤ TimedEvent.duration ⟨0, 480, none, 0⟩ := by
  constructor
  · exact ((duration_ticks_floored_at_one.1 (1/4) 1 480).1)
  · refine duration_ticks_floored_at_one.2 480 (.rest (1/4) 1) 0 1 false
      ⟨0, 480, none, 0⟩ ?_
    simp only [traverse]
    rw [startTicks_eval 0 480 0 (by norm_num),
      durationTicks_eval (1/4 * 1) 1 480 480 (by norm_num [tick_scale])
        (by norm_num)]
    exact List.mem_singleton.mpr rfl

/-- C6. `_extract_tempo` takes its tempo from the first tempo marking (in
document order) that states a BPM, multiplying the stated BPM by the ratio
of the marking's beat unit to a quarter note; markings without values are
skipped, and with no marking at all the caller's fallback is returned, so
conversion does not fail. -/
theorem extract_tempo_first_marking :
    (∀ default_bpm : ℤ, extract_tempo [] default_bpm = (default_bpm : ℚ)) ∧
    (∀ (t : TempoNode) (restNodes : List TempoNode) (default_bpm : ℤ)
        (v : ℚ) (vs : List ℚ), t.values = v :: vs →
      extract_tempo (t :: restNodes) default_bpm =
        v * (tempoBaseFraction t.fraction / (1/4))) ∧
    (∀ (t : TempoNode) (restNodes : List TempoNode) (default_bpm : ℤ),
      t.values = [] →
      extract_tempo (t :: restNodes) default_bpm =
        extract_tempo restNodes default_bpm) := by
  refine ⟨fun _ => rfl, ?_, ?_⟩
  · intro t restNodes default_bpm v vs hv
    simp only [extract_tempo, hv]
  · intro t restNodes default_bpm hv
    simp only [extract_tempo, hv]

/-- C6 witness: a marking quarter-note = 90 yields 90 quarter-note BPM, and
an empty document falls back to 120. -/
theorem extract_tempo_first_marking_witness :
    extract_tempo [⟨[90], some (1/4)⟩] 120 =
      90 * (tempoBaseFraction (some (1/4)) / (1/4)) ∧
    extract_tempo [] 120 = (120 : ℚ) := by
  constructor
  · exact extract_tempo_first_marking.2.1 ⟨[90], some (1/4)⟩ [] 120 90 [] rfl
  · exact extract_tempo_first_marking.1 120

/-- C8. `pitch_to_midi` is monotonic in octave (letter and alteration
fixed), monotonic in the diatonic letter index within an octave (octave and
alteration fixed), and always returns a value in `[0, 127]`. -/
theorem pitch_to_midi_monotone_and_bounded :
    (∀ p q : Pitch, p.note = q.note → p.alter = q.alter → p.octave ≤ q.octave →
      pitch_to_midi p ≤ pitch_to_midi q) ∧
    (∀ p q : Pitch, p.octave = q.octave → p.alter = q.alter → p.note ≤ q.note →
      pitch_to_midi p ≤ pitch_to_midi q) ∧
    (∀ p : Pitch, 0 ≤ pitch_to_midi p ∧ pitch_to_midi p ≤ 127) := by
  refine ⟨?_, ?_, ?_⟩
  · intro p q hn ha ho
    unfold pitch_to_midi
    rw [hn, ha]
    apply clamp_mono
    have : SEMITONES_PER_OCTAVE * (p.octave + MIDI_C4_OCTAVE_OFFSET) ≤
        SEMITONES_PER_OCTAVE * (q.octave + MIDI_C4_OCTAVE_OFFSET) := by
      unfold SEMITONES_PER_OCTAVE MIDI_C4_OCTAVE_OFFSET
      omega
    omega
  · intro p q ho ha hn
    unfold pitch_to_midi
    rw [ho, ha]
    apply clamp_mono
    have := NOTE_OFFSETS_mono p.note q.note hn
    omega
  · intro p
    unfold pitch_to_midi
    constructor
    · exact le_max_left _ _
    · exact max_le (by norm_num) (min_le_left _ _)

/-- C3 counterexample: `parse_note` does raise on some whitespace-separated
tokens.  The duration text 2/2 of the token C2/2 (and the text z of the rest
token zz) makes Python `int(...)` raise `ValueError`, terminating the
process, so graceful recovery does not hold for every token. -/
theorem parse_note_valueerror_counterexample :
    parse_note "C2/2" = none ∧ parse_note "zz" = none :=
  ⟨rfl, rfl⟩

/-- C3 (amended). `parse_note` returns a `(frequency, duration)` pair for
every token whose duration text is accepted by the duration parser, and a
non-rest token with no letter match is treated as a rest at the base
duration; but a token whose duration text fails integer parsing (or divides
by zero) raises and terminates the process, so the only-fatal-case claim
does not extend to malformed duration text. -/
theorem parse_note_total_except_bad_duration :
    (∀ note_str : String,
      parse_note note_str = none ↔
        parse_duration (durationPart note_str) = none) ∧
    (∀ note_str : String, note_str.toList.head? ≠ some 'z' →
      matchNote note_str.toList = none →
      parse_note note_str = some (⟨0, 0⟩, BASE_DURATION)) := by
  constructor
  · intro note_str
    simp only [parse_note, durationPart]
    by_cases hz : note_str.toList.head? = some 'z'
    · rw [if_pos hz, if_pos hz]
      simp [Option.map_eq_none']
    · rw [if_neg hz, if_neg hz]
      cases hm : matchNote note_str.toList with
      | none => simp [hm, parse_duration]
      | some g =>
        obtain ⟨accidental, note_name, dur_chars⟩ := g
        simp [hm, Option.map_eq_none']
  · intro note_str hz hm
    simp only [parse_note]
    rw [if_neg hz, hm]

/-- C3 witness: the theorem applied to the letterless token x and to the
raising token C2/2. -/
theorem parse_note_total_except_bad_duration_witness :
    parse_note "x" = some (⟨0, 0⟩, BASE_DURATION) ∧
    (parse_note "C2/2" = none ↔
      parse_duration (durationPart "C2/2") = none) :=
  ⟨parse_note_total_except_bad_duration.2 "x" (by decide) rfl,
   parse_note_total_except_bad_duration.1 "C2/2"⟩

/-- C4. When traversal visits a chord node while drum-mode is active, start
and duration are computed once for the whole chord and one TimedEvent is
emitted per mapped drum-note child, each with the chord's shared start
tick, shared duration and percussion channel 9; the input drummode
with chords bd-hh and sn-hho (both quarter notes) yields four events with
notes in encounter order 36, 42, 38, 46. -/
theorem drum_chord_shared_timing :
    (∀ (tpb : ℕ) (time scaling len scal : ℚ) (children : List Item),
      (traverse tpb (.chord len scal children) time scaling true).events =
        chordEventsSpec (startTicks time tpb)
          (durationTicks (len * scal) scaling tpb) (drumTokens children)) ∧
    (∃ s1 d1 s2 d2 : ℤ,
      (traverse 480 drumChordScenario 0 1 false).events =
        [⟨s1, d1, some 36, DRUM_CHANNEL⟩, ⟨s1, d1, some 42, DRUM_CHANNEL⟩,
         ⟨s2, d2, some 38, DRUM_CHANNEL⟩, ⟨s2, d2, some 46, DRUM_CHANNEL⟩]) := by
  constructor
  · intro tpb time scaling len scal children
    simp [traverse, chordDrumEvents_eq]
  · exact ⟨_, _, _, _, rfl⟩

/-- C7 counterexample: an unmapped drum mnemonic does produce a TimedEvent
when it stands alone (outside a chord): the event is appended with an
absent note on the percussion channel, so the no-TimedEvent claim fails;
only the derived MIDI messages are absent. -/
theorem unmapped_drum_timedevent_counterexample :
    (traverse 480 unmappedDrumScenario 0 1 false).events =
      [⟨0, 480, none, DRUM_CHANNEL⟩] ∧
    (traverse 480 unmappedDrumScenario 0 1 false).events ≠ [] ∧
    (traverse 480 unmappedDrumScenario 0 1 false).warnings =
      [unmappedWarning "unknowndrum"] := by
  have h2 : (traverse 480 unmappedDrumScenario 0 1 false).events =
      [⟨0, 480, none, DRUM_CHANNEL⟩] := by
    show [(⟨startTicks 0 480, durationTicks (1/4 * 1) 1 480,
      drumNameToMidi "unknowndrum", DRUM_CHANNEL⟩ : TimedEvent)] ++ [] = _
    rw [startTicks_eval 0 480 0 (by norm_num),
      durationTicks_eval (1/4 * 1) 1 480 480 (by norm_num [tick_scale])
        (by norm_num)]
    rfl
  exact ⟨h2, by rw [h2]; exact (by decide), rfl⟩

/-- C7 (amended). An unmapped drum mnemonic produces no note-carrying
TimedEvent: inside a chord it is skipped outright, while a standalone
unmapped drum note yields a note-less event that the timeline builder
drops, so no MIDI message results either way; the lookup emits a warning
naming the mnemonic, and traversal continues so the remaining mapped names
still produce their events. -/
theorem unmapped_drum_skipped_with_warning :
    (∀ tok, drumNameToMidi tok = none →
      ∃ pre suf, unmappedWarning tok = pre ++ tok ++ suf) ∧
    (∀ (st du : ℤ) (toks : List String),
      chordEventsSpec st du toks =
        chordEventsSpec st du
          (toks.filter fun tok => (drumNameToMidi tok).isSome)) ∧
    (∀ (tpb : ℕ) (scaling : ℚ) (inDrum : Bool) (len scal : ℚ)
        (names : List String) (time : ℚ),
      ((traverseSeq tpb (names.map fun nm => Item.drumNote nm len scal)
          time scaling inDrum).events.map TimedEvent.note) =
        names.map drumNameToMidi ∧
      (traverseSeq tpb (names.map fun nm => Item.drumNote nm len scal)
          time scaling inDrum).warnings = unmappedWarningsOf names) ∧
    (∀ e : TimedEvent, e.note = none → buildTimeline [e] = []) := by
  refine ⟨?_, ?_, ?_, ?_⟩
  · intro tok _
    exact ⟨"Unmapped drum name ", " - skipping this percussion event", rfl⟩
  · intro st du toks
    induction toks with
    | nil => rfl
    | cons tok restToks ih =>
      cases hlook : drumNameToMidi tok with
      | none =>
        simpa [chordEventsSpec, List.filterMap_cons, List.filter_cons, hlook]
          using ih
      | some n =>
        simpa [chordEventsSpec, List.filterMap_cons, List.filter_cons, hlook]
          using ih
  · intro tpb scaling inDrum len scal names
    induction names with
    | nil => intro time; exact ⟨rfl, rfl⟩
    | cons nm restNames ih =>
      intro time
      constructor
      · simp only [List.map_cons, traverseSeq, traverse, List.map_append,
          List.map_cons, List.map_nil, List.singleton_append]
        exact congrArg (drumNameToMidi nm :: ·) (ih _).1
      · simp only [List.map_cons, traverseSeq, traverse]
        show drumLookupWarnings nm ++ _ = _
        rw [(ih _).2]
        unfold drumLookupWarnings unmappedWarningsOf
        cases hlook : drumNameToMidi nm with
        | none => simp [List.filter_cons, hlook]
        | some n => simp [List.filter_cons, hlook]
  · intro e he
    simp only [buildTimeline, he]

/-- C7 witness: the theorem applied to the unmapped mnemonic and to the
note-less event it produces. -/
theorem unmapped_drum_skipped_with_warning_witness :
    (∃ pre suf, unmappedWarning "unknowndrum" = pre ++ "unknowndrum" ++ suf) ∧
    buildTimeline [⟨0, 480, none, DRUM_CHANNEL⟩] = [] :=
  ⟨unmapped_drum_skipped_with_warning.1 "unknowndrum" rfl,
   unmapped_drum_skipped_with_warning.2.2.2 ⟨0, 480, none, DRUM_CHANNEL⟩ rfl⟩

theorem pyRoundR_intCast (n : ℤ) : pyRoundR ((n : ℝ)) = n := by
  unfold pyRoundR
  rw [Int.floor_intCast, sub_self, if_neg (by norm_num), round_intCast]

theorem abs_sub_pyRoundR (x : ℝ) : |x - (pyRoundR x : ℝ)| ≤ 1/2 := by
  unfold pyRoundR
  by_cases h : x - ⌊x⌋ = 1/2
  · rw [if_pos h]
    by_cases h2 : 2 ∣ ⌊x⌋
    · rw [if_pos h2]
      rw [show x - (⌊x⌋ : ℝ) = 1/2 from h, abs_of_nonneg (by norm_num)]
    · rw [if_neg h2]
      have hx : x - ((⌊x⌋ + 1 : ℤ) : ℝ) = -(1/2) := by
        push_cast
        linarith [h]
      rw [hx, abs_neg, abs_of_nonneg (by norm_num)]
  · rw [if_neg h]
    exact abs_sub_round x

/-- The denoted real frequency is positive exactly when the rational table
component is: the semitone-ratio power is strictly positive. -/
theorem Frequency.toReal_pos_iff (f : Frequency) :
    0 < f.toReal ↔ 0 < f.base := by
  unfold Frequency.toReal
  constructor
  · intro h
    by_contra hb
    push_neg at hb
    have hb2 : (f.base : ℝ) ≤ 0 := by exact_mod_cast hb
    have hpow : (0:ℝ) < (2 : ℝ) ^ ((f.semis : ℝ) / 12) :=
      Real.rpow_pos_of_pos (by norm_num) _
    nlinarith
  · intro h
    have hb2 : (0:ℝ) < (f.base : ℝ) := by exact_mod_cast h
    exact mul_pos hb2 (Real.rpow_pos_of_pos (by norm_num) _)

theorem getLast_cons_eq_getLastD {α : Type} (t : α) (ts : List α) (d : α)
    (h : t :: ts ≠ []) : (t :: ts).getLast h = (t :: ts).getLastD d := by
  induction ts generalizing t d with
  | nil => rfl
  | cons t2 ts2 ih =>
    rw [List.getLast_cons_cons]
    exact ih t2 t (by simp)

theorem TrackMsg.addTime_time (m : TrackMsg) (k : ℤ) :
    (m.addTime k).time = m.time + k := by
  cases m <;> rfl

theorem TrackMsg.addTime_neg (m : TrackMsg) (k : ℤ) :
    (m.addTime k).addTime (-k) = m := by
  cases m <;> simp [TrackMsg.addTime]

theorem sumTimes_append (l1 l2 : List TrackMsg) :
    sumTimes (l1 ++ l2) = sumTimes l1 + sumTimes l2 := by
  unfold sumTimes
  rw [List.map_append, List.sum_append]

theorem sumTimes_restUpdate (t : TrackMsg) (ts : List TrackMsg) (k : ℤ) :
    sumTimes (restUpdate (t :: ts) k) = sumTimes (t :: ts) + k := by
  unfold restUpdate
  have hsplit : (t :: ts) =
      (t :: ts).dropLast ++ [(t :: ts).getLast (by simp)] :=
    (List.dropLast_append_getLast (by simp)).symm
  rw [sumTimes_append]
  conv_rhs => rw [hsplit, sumTimes_append]
  rw [← getLast_cons_eq_getLastD t ts (.trackName "" 0) (by simp)]
  unfold sumTimes
  simp [TrackMsg.addTime_time]
  ring

/-- C8 witness: monotonicity and bounds at concrete pitches. -/
theorem pitch_to_midi_monotone_and_bounded_witness :
    pitch_to_midi ⟨0, 0, 0⟩ ≤ pitch_to_midi ⟨0, 0, 1⟩ ∧
    pitch_to_midi ⟨2, 0, 1⟩ ≤ pitch_to_midi ⟨5, 0, 1⟩ ∧
    0 ≤ pitch_to_midi ⟨0, 0, -9⟩ ∧ pitch_to_midi ⟨6, 1, 9⟩ ≤ 127 := by
  refine ⟨?_, ?_, ?_, ?_⟩
  · exact pitch_to_midi_monotone_and_bounded.1 ⟨0, 0, 0⟩ ⟨0, 0, 1⟩ rfl rfl
      (by norm_num)
  · exact pitch_to_midi_monotone_and_bounded.2.1 ⟨2, 0, 1⟩ ⟨5, 0, 1⟩ rfl rfl
      (by decide)
  · exact (pitch_to_midi_monotone_and_bounded.2.2 ⟨0, 0, -9⟩).1
  · exact (pitch_to_midi_monotone_and_bounded.2.2 ⟨6, 1, 9⟩).2

/-- C9. For every positive frequency in the supported note range (the
rounded note number is not clamped), the round trip through
`frequency_to_midi_note` and `midi_note_to_frequency` recovers the
frequency up to half a semitone, i.e. up to a factor of 2 to the 1/24. -/
theorem frequency_roundtrip (f : ℝ) (hf : 0 < f)
    (hlo : 0 ≤ pyRoundR (69 + 12 * Real.logb 2 (f / 440)))
    (hhi : pyRoundR (69 + 12 * Real.logb 2 (f / 440)) ≤ 127) :
    f * (2 : ℝ) ^ (-(1 : ℝ) / 24) ≤
      midi_note_to_frequency (frequency_to_midi_note f) ∧
    midi_note_to_frequency (frequency_to_midi_note f) ≤
      f * (2 : ℝ) ^ ((1 : ℝ) / 24) := by
  set x : ℝ := 69 + 12 * Real.logb 2 (f / 440) with hxdef
  set n : ℤ := pyRoundR x with hndef
  have hne : f ≠ 0 := ne_of_gt hf
  have hfm : frequency_to_midi_note f = n := by
    unfold frequency_to_midi_note
    rw [if_neg hne, ← hxdef, ← hndef, min_eq_right hhi, max_eq_right hlo]
  have hx2 : Real.logb 2 (f / 440) = (x - 69) / 12 := by
    rw [hxdef]; ring
  have hf440 : (0:ℝ) < f / 440 := by positivity
  have hfe : 440 * (2:ℝ) ^ ((x - 69) / 12) = f := by
    rw [← hx2, Real.rpow_logb (by norm_num) (by norm_num) hf440]
    field_simp
  have habs : |x - (n:ℝ)| ≤ 1/2 := abs_sub_pyRoundR x
  have hg : midi_note_to_frequency n = f * (2:ℝ) ^ (((n:ℝ) - x) / 12) := by
    unfold midi_note_to_frequency
    have hsplit : ((n:ℝ) - 69) / 12 = (x - 69) / 12 + ((n:ℝ) - x) / 12 := by
      ring
    rw [hsplit, Real.rpow_add (by norm_num), ← mul_assoc, hfe]
  have hd1 : -(1:ℝ)/24 ≤ ((n:ℝ) - x) / 12 := by
    have := abs_le.mp habs
    linarith [this.2]
  have hd2 : ((n:ℝ) - x) / 12 ≤ (1:ℝ)/24 := by
    have := abs_le.mp habs
    linarith [this.1]
  have hmono1 : (2:ℝ) ^ (-(1:ℝ)/24) ≤ (2:ℝ) ^ (((n:ℝ) - x) / 12) :=
    (Real.rpow_le_rpow_left_iff (by norm_num : (1:ℝ) < 2)).mpr hd1
  have hmono2 : (2:ℝ) ^ (((n:ℝ) - x) / 12) ≤ (2:ℝ) ^ ((1:ℝ)/24) :=
    (Real.rpow_le_rpow_left_iff (by norm_num : (1:ℝ) < 2)).mpr hd2
  rw [hfm, hg]
  constructor
  · calc f * (2:ℝ) ^ (-(1:ℝ) / 24) ≤ f * (2:ℝ) ^ (((n:ℝ) - x) / 12) :=
        mul_le_mul_of_nonneg_left hmono1 (le_of_lt hf)
    _ = f * (2:ℝ) ^ (((n:ℝ) - x) / 12) := rfl
  · exact mul_le_mul_of_nonneg_left hmono2 (le_of_lt hf)

/-- C9 witness: the theorem applied at 440 Hz (concert A, MIDI note 69). -/
theorem frequency_roundtrip_witness :
    (440:ℝ) * (2:ℝ) ^ (-(1:ℝ)/24) ≤
      midi_note_to_frequency (frequency_to_midi_note 440) ∧
    midi_note_to_frequency (frequency_to_midi_note 440) ≤
      (440:ℝ) * (2:ℝ) ^ ((1:ℝ)/24) := by
  have heval : pyRoundR (69 + 12 * Real.logb 2 ((440:ℝ) / 440)) = 69 := by
    have h1 : (69 + 12 * Real.logb 2 ((440:ℝ) / 440)) = ((69:ℤ):ℝ) := by
      rw [show ((440:ℝ)/440) = 1 by norm_num, Real.logb_one]
      norm_num
    rw [h1, pyRoundR_intCast]
  exact frequency_roundtrip 440 (by norm_num) (by rw [heval]; norm_num)
    (by rw [heval]; norm_num)

/-- C10. For every rest token, the token loop of `save_to_midi` appends no
MIDI message: the rest's tick count is added only to the time field of the
most recently appended message (the set_tempo meta message when the rest is
the first token), the earlier messages and the last message's other fields
are unchanged, and the track's total time grows by exactly the rest
duration, so subsequent notes start later by exactly that amount. -/
theorem rest_token_frame (tempo : ℤ) (t : TrackMsg) (ts : List TrackMsg)
    (note_str : String) (frequency : Frequency) (duration : ℤ)
    (hparse : parse_note note_str = some (frequency, duration))
    (hrest : ¬ 0 < frequency.base) :
    processToken tempo (t :: ts) note_str =
      some (restUpdate (t :: ts) (tokenTicks tempo duration)) ∧
    (restUpdate (t :: ts) (tokenTicks tempo duration)).length =
      (t :: ts).length ∧
    (restUpdate (t :: ts) (tokenTicks tempo duration)).dropLast =
      (t :: ts).dropLast ∧
    sumTimes (restUpdate (t :: ts) (tokenTicks tempo duration)) =
      sumTimes (t :: ts) + tokenTicks tempo duration ∧
    (∀ (m : TrackMsg) (k : ℤ), (m.addTime k).time = m.time + k ∧
      (m.addTime k).addTime (-k) = m) ∧
    processToken tempo (initialTrack tempo) note_str =
      some [.trackName "rappa ABC" 0,
            .setTempo (bpm2tempo tempo) (0 + tokenTicks tempo duration)] := by
  have hmain : ∀ (t2 : TrackMsg) (ts2 : List TrackMsg),
      processToken tempo (t2 :: ts2) note_str =
        some (restUpdate (t2 :: ts2) (tokenTicks tempo duration)) := by
    intro t2 ts2
    unfold processToken
    rw [hparse]
    simp only [if_neg hrest]
    unfold restUpdate
    rw [getLast_cons_eq_getLastD t2 ts2 (.trackName "" 0) (by simp)]
  refine ⟨hmain t ts, ?_, ?_, sumTimes_restUpdate t ts _, ?_, ?_⟩
  · unfold restUpdate
    rw [List.length_append, List.length_dropLast]
    simp
  · unfold restUpdate
    rw [List.dropLast_concat]
  · intro m k
    exact ⟨TrackMsg.addTime_time m k, TrackMsg.addTime_neg m k⟩
  · have h := hmain (.trackName "rappa ABC" 0) [.setTempo (bpm2tempo tempo) 0]
    rw [show initialTrack tempo =
      TrackMsg.trackName "rappa ABC" 0 :: [.setTempo (bpm2tempo tempo) 0]
      from rfl, h]
    rfl

/-- C10 witness: the theorem applied to the rest token z2 on the freshly
initialised track, where the set_tempo message absorbs the rest's ticks. -/
theorem rest_token_frame_witness :
    processToken 120 (initialTrack 120) "z2" =
      some [.trackName "rappa ABC" 0,
            .setTempo (bpm2tempo 120) (0 + tokenTicks 120 1000)] ∧
    sumTimes (restUpdate
        (TrackMsg.trackName "rappa ABC" 0 :: [.setTempo (bpm2tempo 120) 0])
        (tokenTicks 120 1000)) =
      sumTimes
        (TrackMsg.trackName "rappa ABC" 0 :: [.setTempo (bpm2tempo 120) 0]) +
        tokenTicks 120 1000 := by
  have h := rest_token_frame 120 (.trackName "rappa ABC" 0)
    [.setTempo (bpm2tempo 120) 0] "z2" ⟨0, 0⟩ 1000 rfl (lt_irrefl 0)
  exact ⟨h.2.2.2.2.2, h.2.2.2.1⟩

end Rappa
